import Mathlib

/-!
Shallow embedding of `web/signature_manager.js` (classes `SignatureManager` and
`EditDescriptionDialog`).

The DOM-level controller is modelled as a state record `SMState` holding the
private fields of `SignatureManager` that the verified claims talk about,
together with the relevant DOM state it drives (the description input value,
the disabled state of the buttons, the visibility flags).  User interactions
and resolved collaborator callbacks are events (`Ev`); `step` is the event
handler dispatch, each branch translated from the corresponding JavaScript
listener.  Per-tab listeners are registered with an `AbortController` scoped
to the current tab, so an input event of another tab's widget is a no-op:
this is modelled by guarding the corresponding `step` branches on
`currentTab`.

The accumulated SVG path string `#drawPathString` is modelled as the list of
commands appended to it (`PathCmd`), one entry per `+=` in the source;
coordinates are rationals (the JavaScript numbers after `Math.round`, and the
exact results of the `/6`, `/2` control-point arithmetic).  The flat JS array
`#drawPoints` of interleaved `x, y` coordinates is modelled as a list of
pairs kept most-recent-first, so `at(-1)/at(-2)` is the head and `slice(-4)`
is the first two entries.
-/

set_option autoImplicit false

namespace SignatureModel

/-- The three capture tabs of the add-signature dialog
(`#tabButtons` keys `"type"`, `"draw"`, `"image"`). -/
inductive Tab
  | type
  | draw
  | image
deriving DecidableEq, Repr

/-- One SVG path command appended to `#drawPathString`:
`M x y`, `L x y` or `C c1x c1y c2x c2y x y`. -/
inductive PathCmd
  | move (x y : ℚ)
  | line (x y : ℚ)
  | curve (c1x c1y c2x c2y x y : ℚ)
deriving DecidableEq, Repr

/-- `true` exactly on curve (`C`) commands. -/
def PathCmd.isCurve : PathCmd → Bool
  | .curve _ _ _ _ _ _ => true
  | _ => false

/-- `true` exactly on line (`L`) commands. -/
def PathCmd.isLine : PathCmd → Bool
  | .line _ _ => true
  | _ => false

/-- The `#drawCurves` object: surface bounds at first stroke, stroke
thickness, and the list of strokes (each stroke is its recorded points,
oldest first, mirroring each `curves.push({points})`). -/
structure DrawCurvesData where
  width : ℚ
  height : ℚ
  thickness : Int
  curves : List (List (ℚ × ℚ))
deriving DecidableEq, Repr

/-- The outline part of the result of `#currentEditor.getFromImage`. -/
structure OutlineInfo where
  viewBox : String
  svgPath : String
deriving DecidableEq, Repr

/-- The result object of `#currentEditor.getFromImage(bitmap)` assigned to
`#extractedSignatureData`; its `outline` field may be `null`. -/
structure ExtractedData where
  outline : Option OutlineInfo
deriving DecidableEq, Repr

/-- The live state of the add-signature dialog: the `SignatureManager`
private fields used by the claims plus the DOM state the class drives. -/
structure SMState where
  /-- `#currentTab` (`null` before the first tab click). -/
  currentTab : Option Tab
  /-- `#tabsToAltText`: per-tab description snapshots (all keys are
  initialized to `""` on `open`). -/
  tabsToAltText : Tab → String
  /-- `#description.value` (the shared description input). -/
  descriptionValue : String
  /-- `#clearDescription.disabled`. -/
  clearDescriptionDisabled : Bool
  /-- `#hasDescriptionChanged`. -/
  hasDescriptionChanged : Bool
  /-- `#typeInput.value`. -/
  typeInputValue : String
  /-- `#drawCurves` (`null` until the first stroke since the last reset). -/
  drawCurves : Option DrawCurvesData
  /-- whether `#drawPath` is non-`null`. -/
  drawPathExists : Bool
  /-- `#drawPathString`, as the list of appended commands. -/
  drawPathCmds : List PathCmd
  /-- `#drawPlaceholder.hidden`. -/
  drawPlaceholderHidden : Bool
  /-- `#drawThickness.value`. -/
  drawThicknessValue : Int
  /-- `#extractedSignatureData`. -/
  extractedSignatureData : Option ExtractedData
  /-- whether `#imagePath` is non-`null`. -/
  imagePathExists : Bool
  /-- `#imagePlaceholder.hidden`. -/
  imagePlaceholderHidden : Bool
  /-- `#addButton.disabled`. -/
  addDisabled : Bool
  /-- `#clearButton.disabled`. -/
  clearDisabled : Bool
  /-- whether `#saveContainer` has its `disabled` attribute. -/
  saveContainerDisabled : Bool
  /-- `#saveCheckbox.checked`. -/
  saveChecked : Bool
  /-- whether `#saveContainer` carries the `fullStorage` class. -/
  fullStorageFlagged : Bool
  /-- `#errorBar.hidden`. -/
  errorBarHidden : Bool
  /-- whether the dialog carries the `waiting` class. -/
  waiting : Bool

/-- `#tabsToAltText.set(t, v)` on a map represented as a function. -/
def setAlt (f : Tab → String) (t : Tab) (v : String) : Tab → String :=
  fun u => if u = t then v else f u

/-- `SignatureManager.#disableButtons(value)`. -/
def disableButtons (s : SMState) (value : Bool) : SMState :=
  { s with clearDisabled := !value, addDisabled := !value,
           saveContainerDisabled := !value }

/-- `SignatureManager.#resetCommon()`. -/
def resetCommon (s : SMState) : SMState :=
  let s := { s with hasDescriptionChanged := false, descriptionValue := "" }
  match s.currentTab with
  | some t => { s with tabsToAltText := setAlt s.tabsToAltText t "" }
  | none => s

/-- `SignatureManager.#resetTab(name)`. -/
def resetTab (s : SMState) : Tab → SMState
  | .type => { s with typeInputValue := "" }
  | .draw =>
      { s with drawCurves := none, drawPathCmds := [], drawPathExists := false,
               drawPlaceholderHidden := false, drawThicknessValue := 1 }
  | .image =>
      { s with imagePlaceholderHidden := false, imagePathExists := false }

/-- `SignatureManager.#initTypeTab(reset)` (the part that mutates state;
the listeners it registers are the `typeIn`/`descIn` event branches). -/
def initTypeTab (s : SMState) (reset : Bool) : SMState :=
  let s := if reset then resetTab s .type else s
  disableButtons s (s.typeInputValue != "")

/-- `SignatureManager.#initDrawTab(reset)` (state part; the registered
pointer listeners are the `stroke` event branch). -/
def initDrawTab (s : SMState) (reset : Bool) : SMState :=
  let s := if reset then resetTab s .draw else s
  disableButtons s s.drawPathExists

/-- `SignatureManager.#initImageTab(reset)` (state part; the registered
picker/drop listeners are the `pickImage` event branch). -/
def initImageTab (s : SMState) (reset : Bool) : SMState :=
  let s := if reset then resetTab s .image else s
  disableButtons s s.imagePathExists

/-- `SignatureManager.#initTab(name)`; `name = none` is the
`#initTab(null)` call performed by the clear-signature button. -/
def initTab (s : SMState) (name : Option Tab) : SMState :=
  if name.isSome ∧ s.currentTab = name then s
  else
    let s :=
      match s.currentTab with
      | some t =>
          { s with tabsToAltText := setAlt s.tabsToAltText t s.descriptionValue }
      | none => s
    let s :=
      match name with
      | some t => { s with currentTab := some t }
      | none => s
    let reset := name.isNone
    let s :=
      if reset then resetCommon s
      else
        match s.currentTab with
        | some t => { s with descriptionValue := s.tabsToAltText t }
        | none => s
    let s := { s with clearDescriptionDisabled := s.descriptionValue == "" }
    match s.currentTab with
    | some .type => initTypeTab s reset
    | some .draw => initDrawTab s reset
    | some .image => initImageTab s reset
    | none => s

/-- The `input` listener on `#typeInput` registered by `#initTypeTab`. -/
def typeInStep (s : SMState) (v : String) : SMState :=
  let s := { s with typeInputValue := v }
  let s :=
    if !s.hasDescriptionChanged then
      { s with descriptionValue := v, clearDescriptionDisabled := v == "" }
    else s
  disableButtons s (v != "")

/-- An `input` event on the description field: the constructor-level
listener updates the clear-description button, and the listener registered
by `#initTypeTab` (active only while the type tab is current) recomputes
`#hasDescriptionChanged`. -/
def descInStep (s : SMState) (v : String) : SMState :=
  let s := { s with descriptionValue := v, clearDescriptionDisabled := v == "" }
  if s.currentTab = some Tab.type then
    { s with hasDescriptionChanged := s.typeInputValue != v }
  else s

/-- The `C` command appended for an incoming point `p` after the trailing
recorded points `p1, p2` (`p1` older): control points are the
`1/6 · p1 + 5/6 · p2` and `5/6 · p2 + 1/6 · p` blends, ending at the
midpoint of `p2` and `p`. -/
def mkCurve (p1 p2 p : ℚ × ℚ) : PathCmd :=
  .curve ((p1.1 + 5 * p2.1) / 6) ((p1.2 + 5 * p2.2) / 6)
    ((5 * p2.1 + p.1) / 6) ((5 * p2.2 + p.2) / 6)
    ((p2.1 + p.1) / 2) ((p2.2 + p.2) / 2)

/-- The `pointermove` listener of one stroke, handling one rounded incoming
point `p`.  The state is (`#drawPoints` most-recent-first, the commands of
`#drawPathString`): the move is discarded when it is out of the surface
bounds or repeats the last recorded point; otherwise it appends a curve when
`#drawPoints` already has at least two recorded points
(`drawPoints.length >= 4` on the flat array) and a line otherwise, then
records the point. -/
def movePoint (w h : ℚ) (st : List (ℚ × ℚ) × List PathCmd) (p : ℚ × ℚ) :
    List (ℚ × ℚ) × List PathCmd :=
  if p.1 < 0 ∨ p.2 < 0 ∨ w < p.1 ∨ h < p.2 ∨ st.1.head? = some p then st
  else
    let cmd :=
      match st.1 with
      | p2 :: p1 :: _ => mkCurve p1 p2 p
      | _ => PathCmd.line p.1 p.2
    (p :: st.1, st.2 ++ [cmd])

/-- All `pointermove` events of one stroke, in order. -/
def strokeMoves (w h : ℚ) (rpts : List (ℚ × ℚ)) (cmds : List PathCmd)
    (moves : List (ℚ × ℚ)) : List (ℚ × ℚ) × List PathCmd :=
  moves.foldl (movePoint w h) (rpts, cmds)

/-- One whole stroke gesture: `pointerdown` at `start` (emits `M` and
records the point), the `pointermove`s, then `pointerup` (when the stroke
still has a single point, `drawPoints.length === 2`, a degenerate
line-to-self is appended).  Returns the recorded points (oldest first) and
the commands appended to the path string. -/
def strokeProcess (w h : ℚ) (start : ℚ × ℚ) (moves : List (ℚ × ℚ)) :
    List (ℚ × ℚ) × List PathCmd :=
  let r := strokeMoves w h [start] [PathCmd.move start.1 start.2] moves
  if r.1.length = 1 then (r.1.reverse, r.2 ++ [PathCmd.line start.1 start.2])
  else (r.1.reverse, r.2)

/-- The `pointerdown`/`pointermove`/`pointerup` handlers of `#initDrawTab`
for one stroke on a surface measuring `w × h`: on the first stroke the
placeholder is hidden, `#drawCurves` and `#drawPath` are created and the
buttons are enabled; the stroke's points are pushed onto
`#drawCurves.curves` and its commands onto the path string. -/
def strokeStep (s : SMState) (w h : ℚ) (start : ℚ × ℚ)
    (moves : List (ℚ × ℚ)) : SMState :=
  let s :=
    match s.drawCurves with
    | none =>
      let c : DrawCurvesData :=
        { width := w, height := h, thickness := s.drawThicknessValue,
          curves := [] }
      let s :=
        { s with drawPlaceholderHidden := true, drawCurves := some c,
                 drawPathExists := true }
      disableButtons s true
    | some _ => s
  let r := strokeProcess w h start moves
  let s :=
    match s.drawCurves with
    | some c => { s with drawCurves := some { c with curves := c.curves ++ [r.1] } }
    | none => s
  { s with drawPathCmds := s.drawPathCmds ++ r.2 }

/-- The `input` listener on `#drawThickness` registered by `#initDrawTab`. -/
def thicknessStep (s : SMState) (v : Int) : SMState :=
  let s := { s with drawThicknessValue := v }
  match s.drawCurves with
  | none => s
  | some c => { s with drawCurves := some { c with thickness := v } }

/-- The picker `click` + `change` handlers followed by
`#extractSignature(file)`.  `supported` is whether a file was obtained and
its media type is in the allow-list; `decodeOk` is whether
`imageManager.getFromFile` returned usable data; `res` is the
`getFromImage` result; `fileName` is `file.name`. -/
def pickImageStep (s : SMState) (supported decodeOk : Bool)
    (res : ExtractedData) (fileName : String) : SMState :=
  let s := { s with waiting := true }
  if !supported then { s with errorBarHidden := false, waiting := false }
  else if !decodeOk then { s with errorBarHidden := false, waiting := false }
  else
    let s := { s with extractedSignatureData := some res }
    match res.outline with
    | none => { s with waiting := false }
    | some _ =>
      let s := { s with imagePlaceholderHidden := true }
      let s := disableButtons s true
      let s := { s with imagePathExists := true }
      let s :=
        if s.descriptionValue = "" then
          { s with descriptionValue := fileName,
                   clearDescriptionDisabled := fileName == "" }
        else s
      { s with waiting := false }

/-- Resolution of the asynchronous default-description lookup scheduled at
the first stroke (`#l10n.get(...).then(...)`): `description.value ||= v`. -/
def l10nStep (s : SMState) (v : String) : SMState :=
  let d := if s.descriptionValue = "" then v else s.descriptionValue
  { s with descriptionValue := d, clearDescriptionDisabled := d == "" }

/-- The user interactions and resolved collaborator callbacks that can occur
while the add-signature dialog is open. -/
inductive Ev
  /-- click on a tab button (`#initTab(name)`). -/
  | switchTab (t : Tab)
  /-- click on the clear-signature button (`#initTab(null)`). -/
  | clearSig
  /-- an `input` event on `#typeInput` with new value `v`. -/
  | typeIn (v : String)
  /-- an `input` event on the description field with new value `v`. -/
  | descIn (v : String)
  /-- click on the clear-description button. -/
  | clearDesc
  /-- one full stroke gesture on the draw surface. -/
  | stroke (w h : ℚ) (start : ℚ × ℚ) (moves : List (ℚ × ℚ))
  /-- an `input` event on the thickness slider. -/
  | thickness (v : Int)
  /-- picking or dropping an image file and the extraction that follows. -/
  | pickImage (supported decodeOk : Bool) (res : ExtractedData)
      (fileName : String)
  /-- resolution of the pending default-description localization lookup. -/
  | l10nResolve (v : String)
  /-- toggling the save checkbox. -/
  | setSave (b : Bool)
  /-- click on the error-bar close button. -/
  | errorClose
deriving DecidableEq

/-- Event dispatch.  Branches whose listeners are registered by the per-tab
initializers (and torn down by the tab's `AbortController` on switch) are
guarded on `#currentTab`. -/
def step (s : SMState) (e : Ev) : SMState :=
  match e with
  | .switchTab t => initTab s (some t)
  | .clearSig => initTab s none
  | .typeIn v =>
      if s.currentTab = some Tab.type then typeInStep s v else s
  | .descIn v => descInStep s v
  | .clearDesc => { s with descriptionValue := "", clearDescriptionDisabled := true }
  | .stroke w h start moves =>
      if s.currentTab = some Tab.draw then strokeStep s w h start moves else s
  | .thickness v =>
      if s.currentTab = some Tab.draw then thicknessStep s v else s
  | .pickImage supported decodeOk res fileName =>
      if s.currentTab = some Tab.image then
        pickImageStep s supported decodeOk res fileName
      else s
  | .l10nResolve v => l10nStep s v
  | .setSave b => { s with saveChecked := b }
  | .errorClose => { s with errorBarHidden := true }

/-- Run a sequence of events. -/
def run (s : SMState) (es : List Ev) : SMState := es.foldl step s

/-- The dialog state before `open`: the constructor leaves every widget in
its markup default and `#close` restores exactly this state. -/
def initialState : SMState where
  currentTab := none
  tabsToAltText := fun _ => ""
  descriptionValue := ""
  clearDescriptionDisabled := true
  hasDescriptionChanged := false
  typeInputValue := ""
  drawCurves := none
  drawPathExists := false
  drawPathCmds := []
  drawPlaceholderHidden := false
  drawThicknessValue := 1
  extractedSignatureData := none
  imagePathExists := false
  imagePlaceholderHidden := false
  addDisabled := true
  clearDisabled := true
  saveContainerDisabled := true
  saveChecked := false
  fullStorageFlagged := false
  errorBarHidden := true
  waiting := false

/-- `SignatureManager.open`: `#tabsToAltText` is (re)created with the three
tab names mapped to `""`, the store is asked `isFull()` (its answer is the
parameter), the save container is flagged and the checkbox set from it, and
the type tab button is focused and clicked. -/
def openDialog (isFull : Bool) : SMState :=
  let s :=
    { initialState with tabsToAltText := fun _ => "",
                        fullStorageFlagged := isFull, saveChecked := !isFull }
  initTab s (some Tab.type)

/-- Spec-side description of the commands a stroke contributes, as a function
of its recorded points (oldest first). -/
def specCurves : (ℚ × ℚ) → (ℚ × ℚ) → List (ℚ × ℚ) → List PathCmd
  | _, _, [] => []
  | q1, q2, p :: rest => mkCurve q1 q2 p :: specCurves q2 p rest

/-- Full spec-side command list for the recorded points of a stroke. -/
def specCmds : List (ℚ × ℚ) → List PathCmd
  | [] => []
  | [p] => [PathCmd.move p.1 p.2]
  | p0 :: p1 :: rest =>
      PathCmd.move p0.1 p0.2 :: PathCmd.line p1.1 p1.2 :: specCurves p0 p1 rest

/-- The last two of `a :: b :: l`. -/
def specLast : (ℚ × ℚ) → (ℚ × ℚ) → List (ℚ × ℚ) → (ℚ × ℚ) × (ℚ × ℚ)
  | a, b, [] => (a, b)
  | _, b, c :: tl => specLast b c tl

/-- The command the `pointermove` handler emits for an accepted point `p`
when the recorded points, most recent first, are `rpts`. -/
def specNext (rpts : List (ℚ × ℚ)) (p : ℚ × ℚ) : PathCmd :=
  match rpts with
  | p2 :: p1 :: _ => mkCurve p1 p2 p
  | _ => PathCmd.line p.1 p.2

/-- A dialog freshly opened and switched to the draw tab. -/
def drawTabState : SMState := run (openDialog false) [Ev.switchTab Tab.draw]


/-- The data the per-tab initializers pass to `#disableButtons` when
re-entering tab `t` without reset: `#typeInput.value`, `#drawPath`,
`#imagePath`. -/
def tabData (s : SMState) (t : Tab) : Bool :=
  match t with
  | .type => s.typeInputValue != ""
  | .draw => s.drawPathExists
  | .image => s.imagePathExists

/-- Whether the active tab holds capturable data, as the code computes it:
non-empty typed text, a created stroke buffer, or a displayed traced image
path. -/
def holdsData (s : SMState) : Bool :=
  match s.currentTab with
  | some Tab.type => s.typeInputValue != ""
  | some Tab.draw => s.drawCurves.isSome
  | some Tab.image => s.imagePathExists
  | none => false

/-- The controller invariant maintained while the dialog is open: the three
commit controls agree and are enabled exactly when the active tab holds
data, `#drawPath` exists exactly when `#drawCurves` does, a tab is current,
and a created stroke buffer holds at least one stroke. -/
def Inv (s : SMState) : Prop :=
  s.addDisabled = !holdsData s ∧
  s.clearDisabled = s.addDisabled ∧
  s.saveContainerDisabled = s.addDisabled ∧
  s.drawPathExists = s.drawCurves.isSome ∧
  s.currentTab.isSome = true ∧
  (∀ c, s.drawCurves = some c → c.curves ≠ [])

/-- The capture payload `#add` resolves from the active tab: the typed-text
outline input, the drawn-curves outline input, or the already-extracted
image data. -/
inductive Payload
  | fromText (text : String)
  | fromDraw (curves : Option DrawCurvesData)
  | fromImage (data : Option ExtractedData)
deriving DecidableEq

/-- The `switch (this.#currentTab)` at the top of `#add()`. -/
def commitPayload (s : SMState) : Option Payload :=
  match s.currentTab with
  | some Tab.type => some (.fromText s.typeInputValue)
  | some Tab.draw => some (.fromDraw s.drawCurves)
  | some Tab.image => some (.fromImage s.extractedSignatureData)
  | none => none

/-- The observable collaborator calls `#add()` makes, in order. -/
inductive CallEv
  | createCall (description : String)
  | toolbarAdd (uuid : String) (description : String)
  | warnLog
  | addSignature (data : Option Payload) (description : String)
      (uuid : Option String)
  | closeDialog
deriving DecidableEq

/-- `true` exactly on `addSignature` calls. -/
def CallEv.isAddSignature : CallEv → Bool
  | .addSignature _ _ _ => true
  | _ => false

/-- `true` exactly on `#signatureStorage.create` calls. -/
def CallEv.isCreate : CallEv → Bool
  | .createCall _ => true
  | _ => false

/-- `SignatureManager.#add()` as the trace of collaborator calls it makes:
if the save checkbox is checked, the compressed payload is handed to
`create` (resolving to `storeResult`; `none` models a falsy result) and on
success a toolbar button is synthesized (`#addToolbarButton` bails out when
`processDrawnLines` returns nothing, `processOk = false`) while on failure
only a warning is logged; then `addSignature` is always called with the
payload, description and the obtained id (or `null`), and `#finish` closes
the dialog when it is the overlay manager's active one. -/
def addCommit (s : SMState) (storeResult : Option String) (processOk : Bool)
    (overlayActive : Bool) : List CallEv :=
  let uuid : Option String := if s.saveChecked then storeResult else none
  (if s.saveChecked then
      CallEv.createCall s.descriptionValue ::
        (match storeResult with
         | some u =>
             if processOk then [CallEv.toolbarAdd u s.descriptionValue]
             else []
         | none => [CallEv.warnLog])
    else [])
  ++ [CallEv.addSignature (commitPayload s) s.descriptionValue uuid]
  ++ (if overlayActive then [CallEv.closeDialog] else [])

/-- A dialog freshly opened and switched to the image tab. -/
def imageTabState : SMState := run (openDialog false) [Ev.switchTab Tab.image]

/-- Image tab after a successful extraction of `A.png` followed by an
extraction of `B.png` whose tracing yields no outline. -/
def imageOverwriteState : SMState :=
  run (openDialog false)
    [Ev.switchTab Tab.image,
     Ev.pickImage true true ⟨some ⟨"0 0 10 10", "M 0 0"⟩⟩ "A.png",
     Ev.pickImage true true ⟨none⟩ "B.png"]

/-- The state of the `EditDescriptionDialog`: the snapshot
`#previousDescription`, the description input, the disabled state of its
clear and update buttons, the target editor's `description` property, and
whether the dialog is the active overlay / the preview path is attached. -/
structure EDState where
  previousDescription : String
  descriptionValue : String
  clearDescriptionDisabled : Bool
  updateDisabled : Bool
  editorDescription : String
  dialogActive : Bool
  previewAttached : Bool
deriving DecidableEq, Repr

/-- `EditDescriptionDialog.open(editor)`: snapshot the target's description
into `#previousDescription` and the input, dispatch a synthetic `input`
event (running the input listener), attach the preview path and open the
overlay. -/
def edOpen (editorDescription : String) : EDState where
  previousDescription := editorDescription
  descriptionValue := editorDescription
  clearDescriptionDisabled := editorDescription == ""
  updateDisabled := true
  editorDescription := editorDescription
  dialogActive := true
  previewAttached := true

/-- User interactions inside the description editor. -/
inductive EDEv
  | input (v : String)
  | clearClick
deriving DecidableEq

/-- The `input` listener on the description field and the clear-description
click handler of `EditDescriptionDialog`. -/
def edStep (s : EDState) : EDEv → EDState
  | .input v =>
      { s with descriptionValue := v, clearDescriptionDisabled := v == "",
               updateDisabled := v == s.previousDescription }
  | .clearClick =>
      { s with descriptionValue := "", clearDescriptionDisabled := true }

/-- `EditDescriptionDialog.#finish()` followed by the `close` handler the
overlay close dispatches: close the dialog when active and detach the
preview path. -/
def edFinish (s : EDState) : EDState :=
  if s.dialogActive then
    { s with dialogActive := false, previewAttached := false }
  else s

/-- `EditDescriptionDialog.#update()`. -/
def edUpdate (s : EDState) : EDState :=
  if s.previousDescription = s.descriptionValue then edFinish s
  else edFinish { s with editorDescription := s.descriptionValue }

/-- Run a sequence of description-editor events. -/
def edRun (s : EDState) (es : List EDEv) : EDState := es.foldl edStep s

/-! ### Lemmas and claim theorems -/

lemma movePoint_reject (w h : ℚ) (st : List (ℚ × ℚ) × List PathCmd) (p : ℚ × ℚ)
    (hrej : p.1 < 0 ∨ p.2 < 0 ∨ w < p.1 ∨ h < p.2 ∨ st.1.head? = some p) :
    movePoint w h st p = st := by
  rw [movePoint, if_pos hrej]

lemma movePoint_accept (w h : ℚ) (rpts : List (ℚ × ℚ)) (cmds : List PathCmd)
    (p : ℚ × ℚ)
    (hrej : ¬(p.1 < 0 ∨ p.2 < 0 ∨ w < p.1 ∨ h < p.2 ∨ rpts.head? = some p)) :
    movePoint w h (rpts, cmds) p = (p :: rpts, cmds ++ [specNext rpts p]) := by
  rw [movePoint, if_neg hrej]
  rcases rpts with _ | ⟨a, _ | ⟨b, t⟩⟩ <;> rfl

lemma specCurves_concat (qs : List (ℚ × ℚ)) :
    ∀ a b p, specCurves a b (qs ++ [p]) =
      specCurves a b qs ++ [mkCurve (specLast a b qs).1 (specLast a b qs).2 p] := by
  induction qs with
  | nil => intro a b p; simp [specCurves, specLast]
  | cons c tl ih => intro a b p; simp [specCurves, specLast, ih b c p]

lemma specNext_append (rl : List (ℚ × ℚ)) (x p : ℚ × ℚ) (hl : 2 ≤ rl.length) :
    specNext (rl ++ [x]) p = specNext rl p := by
  match rl with
  | a :: b :: t => rfl
  | [] => simp at hl
  | [a] => simp at hl

lemma specNext_reverse (qs : List (ℚ × ℚ)) :
    ∀ q0 q1 p, specNext ((q0 :: q1 :: qs).reverse) p =
      mkCurve (specLast q0 q1 qs).1 (specLast q0 q1 qs).2 p := by
  induction qs with
  | nil => intro q0 q1 p; rfl
  | cons c tl ih =>
      intro q0 q1 p
      have hlen : 2 ≤ (q1 :: c :: tl).reverse.length := by simp
      have hrw : (q0 :: q1 :: c :: tl).reverse = (q1 :: c :: tl).reverse ++ [q0] := by
        simp
      rw [hrw, specNext_append _ _ _ hlen, ih q1 c p]
      rfl

lemma specCmds_concat (pts : List (ℚ × ℚ)) (p : ℚ × ℚ) (hne : pts ≠ []) :
    specCmds (pts ++ [p]) = specCmds pts ++ [specNext pts.reverse p] := by
  match pts with
  | [] => exact absurd rfl hne
  | [q] => rfl
  | q0 :: q1 :: qs =>
      show specCmds (q0 :: q1 :: (qs ++ [p])) = _
      rw [specCmds, specCmds, specCurves_concat qs q0 q1 p, specNext_reverse qs q0 q1 p]
      simp

lemma strokeMoves_spec (w h : ℚ) :
    ∀ (moves : List (ℚ × ℚ)) (rpts : List (ℚ × ℚ)) (pre : List PathCmd),
      rpts ≠ [] →
      ∃ ext, strokeMoves w h rpts (pre ++ specCmds rpts.reverse) moves =
        (ext ++ rpts, pre ++ specCmds (ext ++ rpts).reverse) := by
  intro moves
  induction moves with
  | nil => intro rpts pre hne; exact ⟨[], rfl⟩
  | cons p rest ih =>
      intro rpts pre hne
      by_cases hrej : p.1 < 0 ∨ p.2 < 0 ∨ w < p.1 ∨ h < p.2 ∨ rpts.head? = some p
      · obtain ⟨ext, hext⟩ := ih rpts pre hne
        refine ⟨ext, ?_⟩
        rw [strokeMoves, List.foldl_cons, movePoint_reject w h _ p hrej]
        exact hext
      · have hcmds : (pre ++ specCmds rpts.reverse) ++ [specNext rpts p]
            = pre ++ specCmds ((p :: rpts).reverse) := by
          rw [List.append_assoc]
          congr 1
          rw [List.reverse_cons,
            specCmds_concat rpts.reverse p (by simpa using hne),
            List.reverse_reverse]
        obtain ⟨ext, hext⟩ := ih (p :: rpts) pre (by simp)
        refine ⟨ext ++ [p], ?_⟩
        rw [strokeMoves, List.foldl_cons, movePoint_accept w h rpts _ p hrej, hcmds]
        rw [strokeMoves] at hext
        rw [hext]
        simp

lemma strokeProcess_spec (w h : ℚ) (start : ℚ × ℚ) (moves : List (ℚ × ℚ)) :
    (strokeProcess w h start moves).1.head? = some start ∧
    ((strokeProcess w h start moves).1.length = 1 →
      (strokeProcess w h start moves).2 =
        [PathCmd.move start.1 start.2, PathCmd.line start.1 start.2]) ∧
    (1 < (strokeProcess w h start moves).1.length →
      (strokeProcess w h start moves).2 = specCmds (strokeProcess w h start moves).1) := by
  obtain ⟨ext, hext⟩ := strokeMoves_spec w h moves [start] [] (by simp)
  have hinit : [PathCmd.move start.1 start.2]
      = ([] : List PathCmd) ++ specCmds ([start].reverse) := by
    simp [specCmds]
  rw [strokeProcess, hinit, hext]
  cases ext with
  | nil => simp [specCmds]
  | cons a tl =>
      have hlen : (a :: tl ++ [start]).length ≠ 1 := by simp
      simp only [if_neg hlen, List.nil_append]
      refine ⟨?_, ?_, ?_⟩
      · simp
      · intro habs; simp at habs
      · intro _; trivial

/-- C2 (amended): a stroke appends its commands to the accumulated path; the
first point of the stroke emits a move command, the second point emits a
straight line command, and from the third point onward each accepted point
emits the smoothing curve whose control points are the 1/6 and 5/6 weighted
combinations of the last two recorded points and the incoming point (the
shape captured by `specCmds`); hence any stroke of three or more points
contains at least one curve command. -/
theorem stroke_path_construction (s : SMState) (w h : ℚ) (start : ℚ × ℚ)
    (moves : List (ℚ × ℚ)) (htab : s.currentTab = some Tab.draw) :
    (step s (Ev.stroke w h start moves)).drawPathCmds
      = s.drawPathCmds ++ (strokeProcess w h start moves).2 ∧
    (strokeProcess w h start moves).1.head? = some start ∧
    (1 < (strokeProcess w h start moves).1.length →
      (strokeProcess w h start moves).2
        = specCmds (strokeProcess w h start moves).1) ∧
    ((strokeProcess w h start moves).1.length = 1 →
      (strokeProcess w h start moves).2
        = [PathCmd.move start.1 start.2, PathCmd.line start.1 start.2]) ∧
    (3 ≤ (strokeProcess w h start moves).1.length →
      (strokeProcess w h start moves).2.any PathCmd.isCurve = true) := by
  obtain ⟨hhead, hdot, hspec⟩ := strokeProcess_spec w h start moves
  refine ⟨?_, hhead, hspec, hdot, ?_⟩
  · show (step s (Ev.stroke w h start moves)).drawPathCmds = _
    rw [step, if_pos htab]
    cases hdc : s.drawCurves with
    | none => simp [strokeStep, hdc, disableButtons]
    | some c => simp [strokeStep, hdc, disableButtons]
  · intro hlen
    have h1 : 1 < (strokeProcess w h start moves).1.length := by omega
    rw [hspec h1]
    rcases hpts : (strokeProcess w h start moves).1 with _ | ⟨p0, _ | ⟨p1, _ | ⟨p2, rest⟩⟩⟩ <;>
      rw [hpts] at hlen <;> simp at hlen ⊢
    simp [specCmds, specCurves, mkCurve, PathCmd.isCurve]

/-- Witness for `stroke_path_construction` at a concrete three-point
stroke from the freshly opened draw tab. -/
theorem stroke_path_construction_witness :
    (step drawTabState (Ev.stroke 100 100 (0, 0) [(6, 0), (12, 6)])).drawPathCmds
      = drawTabState.drawPathCmds
        ++ (strokeProcess 100 100 (0, 0) [(6, 0), (12, 6)]).2 ∧
    (strokeProcess 100 100 (0, 0) [(6, 0), (12, 6)]).2.any PathCmd.isCurve = true := by
  have h := stroke_path_construction drawTabState 100 100 (0, 0)
    [(6, 0), (12, 6)] (by decide)
  exact ⟨h.1, h.2.2.2.2 (by norm_num [strokeProcess, strokeMoves, movePoint,
    mkCurve, Prod.ext_iff])⟩

/-- C2 counterexample: for the stroke starting at (0,0) with accepted moves
(6,0) and (12,6), three points are recorded but the appended path is
move, line, curve: the third point of the stroke emits a smoothing curve,
not a straight line command as the claim states. -/
theorem stroke_third_point_counterexample :
    (strokeProcess 100 100 (0, 0) [(6, 0), (12, 6)]).1
      = [(0, 0), (6, 0), (12, 6)] ∧
    (strokeProcess 100 100 (0, 0) [(6, 0), (12, 6)]).2
      = [PathCmd.move 0 0, PathCmd.line 6 0, PathCmd.curve 5 0 7 1 9 3] ∧
    PathCmd.isLine ((strokeProcess 100 100 (0, 0) [(6, 0), (12, 6)]).2.getD 2
      (PathCmd.move 0 0)) = false := by
  refine ⟨?_, ?_, ?_⟩ <;>
    norm_num [strokeProcess, strokeMoves, movePoint, mkCurve, Prod.ext_iff,
      PathCmd.isLine]


lemma initTab_noop (s : SMState) (t : Tab) (h : s.currentTab = some t) :
    initTab s (some t) = s := by
  rw [initTab, if_pos ⟨rfl, h⟩]

lemma initTab_switch (s : SMState) (t₀ t : Tab) (h : s.currentTab = some t₀)
    (hne : t ≠ t₀) :
    (initTab s (some t)).currentTab = some t ∧
    (∀ u, (initTab s (some t)).tabsToAltText u
      = setAlt s.tabsToAltText t₀ s.descriptionValue u) ∧
    (initTab s (some t)).descriptionValue = s.tabsToAltText t ∧
    (initTab s (some t)).typeInputValue = s.typeInputValue ∧
    (initTab s (some t)).drawCurves = s.drawCurves ∧
    (initTab s (some t)).drawPathExists = s.drawPathExists ∧
    (initTab s (some t)).imagePathExists = s.imagePathExists ∧
    (initTab s (some t)).hasDescriptionChanged = s.hasDescriptionChanged ∧
    (initTab s (some t)).saveChecked = s.saveChecked ∧
    (initTab s (some t)).addDisabled = !(tabData s t) ∧
    (initTab s (some t)).clearDisabled = !(tabData s t) ∧
    (initTab s (some t)).saveContainerDisabled = !(tabData s t) := by
  have hcond : ¬((some t).isSome ∧ s.currentTab = some t) := by
    rintro ⟨-, hc⟩
    rw [h] at hc
    exact hne (Option.some.inj hc).symm
  rw [initTab, if_neg hcond]
  cases t <;>
    simp [h, initTypeTab, initDrawTab, initImageTab, disableButtons, setAlt,
      hne, tabData]

lemma initTab_first (s : SMState) (t : Tab) (h : s.currentTab = none) :
    (initTab s (some t)).currentTab = some t ∧
    (∀ u, (initTab s (some t)).tabsToAltText u = s.tabsToAltText u) ∧
    (initTab s (some t)).descriptionValue = s.tabsToAltText t ∧
    (initTab s (some t)).typeInputValue = s.typeInputValue ∧
    (initTab s (some t)).drawCurves = s.drawCurves ∧
    (initTab s (some t)).drawPathExists = s.drawPathExists ∧
    (initTab s (some t)).imagePathExists = s.imagePathExists ∧
    (initTab s (some t)).hasDescriptionChanged = s.hasDescriptionChanged ∧
    (initTab s (some t)).saveChecked = s.saveChecked ∧
    (initTab s (some t)).addDisabled = !(tabData s t) ∧
    (initTab s (some t)).clearDisabled = !(tabData s t) ∧
    (initTab s (some t)).saveContainerDisabled = !(tabData s t) ∧
    (initTab s (some t)).fullStorageFlagged = s.fullStorageFlagged := by
  have hcond : ¬((some t).isSome ∧ s.currentTab = some t) := by
    rintro ⟨-, hc⟩
    rw [h] at hc
    exact Option.noConfusion hc
  rw [initTab, if_neg hcond]
  cases t <;>
    simp [h, initTypeTab, initDrawTab, initImageTab, disableButtons, tabData]

lemma initTab_clear_away (s : SMState) (t : Tab) (hcur : s.currentTab ≠ some t) :
    (initTab s none).currentTab = s.currentTab ∧
    (initTab s none).tabsToAltText t = s.tabsToAltText t := by
  have hcond : ¬((none : Option Tab).isSome ∧ s.currentTab = none) := by
    rintro ⟨habs, -⟩
    simp at habs
  rw [initTab, if_neg hcond]
  cases hc : s.currentTab with
  | none => simp [hc, resetCommon]
  | some u =>
      have hu : t ≠ u := fun habs => hcur (habs ▸ hc)
      cases u <;>
        simp [hc, resetCommon, initTypeTab, initDrawTab, initImageTab,
          resetTab, disableButtons, setAlt, hu]

lemma typeInStep_eq (s : SMState) (v : String) :
    typeInStep s v =
      { s with typeInputValue := v,
               descriptionValue :=
                 if s.hasDescriptionChanged then s.descriptionValue else v,
               clearDescriptionDisabled :=
                 if s.hasDescriptionChanged then s.clearDescriptionDisabled
                 else v == "",
               clearDisabled := !(v != ""), addDisabled := !(v != ""),
               saveContainerDisabled := !(v != "") } := by
  rw [typeInStep]
  cases hd : s.hasDescriptionChanged <;> simp [hd, disableButtons]

lemma descInStep_eq (s : SMState) (v : String) :
    descInStep s v =
      { s with descriptionValue := v, clearDescriptionDisabled := v == "",
               hasDescriptionChanged :=
                 if s.currentTab = some Tab.type then s.typeInputValue != v
                 else s.hasDescriptionChanged } := by
  rw [descInStep]
  by_cases h : s.currentTab = some Tab.type <;> simp [h]

lemma pickImage_fail (s : SMState) (supported decodeOk : Bool)
    (res : ExtractedData) (fileName : String)
    (h : supported = false ∨ decodeOk = false) :
    pickImageStep s supported decodeOk res fileName =
      { s with errorBarHidden := false, waiting := false } := by
  rw [pickImageStep]
  rcases h with h | h
  · rw [h]
    rfl
  · rw [h]
    cases supported <;> rfl

lemma pickImage_noOutline (s : SMState) (res : ExtractedData)
    (fileName : String) (h : res.outline = none) :
    pickImageStep s true true res fileName =
      { s with extractedSignatureData := some res, waiting := false } := by
  rw [pickImageStep, h]
  rfl

lemma pickImage_success (s : SMState) (res : ExtractedData)
    (fileName : String) (o : OutlineInfo) (h : res.outline = some o) :
    pickImageStep s true true res fileName =
      { s with extractedSignatureData := some res,
               imagePlaceholderHidden := true, addDisabled := false,
               clearDisabled := false, saveContainerDisabled := false,
               imagePathExists := true,
               descriptionValue :=
                 if s.descriptionValue = "" then fileName
                 else s.descriptionValue,
               clearDescriptionDisabled :=
                 if s.descriptionValue = "" then fileName == ""
                 else s.clearDescriptionDisabled,
               waiting := false } := by
  rw [pickImageStep, h]
  by_cases hd : s.descriptionValue = "" <;> simp [hd, disableButtons]

lemma strokeStep_none (s : SMState) (w h : ℚ) (start : ℚ × ℚ)
    (moves : List (ℚ × ℚ)) (hdc : s.drawCurves = none) :
    strokeStep s w h start moves =
      { s with drawPlaceholderHidden := true,
               drawCurves :=
                 some ⟨w, h, s.drawThicknessValue, [(strokeProcess w h start moves).1]⟩,
               drawPathExists := true, addDisabled := false,
               clearDisabled := false, saveContainerDisabled := false,
               drawPathCmds :=
                 s.drawPathCmds ++ (strokeProcess w h start moves).2 } := by
  rw [strokeStep]
  simp [hdc, disableButtons]

lemma strokeStep_some (s : SMState) (w h : ℚ) (start : ℚ × ℚ)
    (moves : List (ℚ × ℚ)) (c : DrawCurvesData) (hdc : s.drawCurves = some c) :
    strokeStep s w h start moves =
      { s with drawCurves :=
                 some { c with curves := c.curves ++ [(strokeProcess w h start moves).1] },
               drawPathCmds :=
                 s.drawPathCmds ++ (strokeProcess w h start moves).2 } := by
  rw [strokeStep]
  simp [hdc]


lemma step_away (s : SMState) (t : Tab) (e : Ev)
    (hcur : s.currentTab ≠ some t) (he : e ≠ Ev.switchTab t) :
    (step s e).currentTab ≠ some t ∧
    (step s e).tabsToAltText t = s.tabsToAltText t ∧
    (s.currentTab.isSome = true → (step s e).currentTab.isSome = true) := by
  cases e with
  | switchTab t' =>
      have hne' : t' ≠ t := fun habs => he (habs ▸ rfl)
      rw [step]
      by_cases hc : s.currentTab = some t'
      · rw [initTab_noop s t' hc]
        exact ⟨hcur, rfl, fun hs => hs⟩
      · cases hc2 : s.currentTab with
        | none =>
            obtain ⟨h1, h2, -⟩ := initTab_first s t' hc2
            refine ⟨?_, h2 t, fun hs => by rw [h1]; rfl⟩
            rw [h1]
            simp [hne']
        | some u =>
            have hut : t' ≠ u := fun habs => hc (habs ▸ hc2)
            have htu : t ≠ u := fun habs => hcur (habs ▸ hc2)
            obtain ⟨h1, h2, -⟩ := initTab_switch s u t' hc2 hut
            refine ⟨?_, ?_, fun hs => by rw [h1]; rfl⟩
            · rw [h1]
              simp [hne']
            · rw [h2 t, setAlt, if_neg htu]
  | clearSig =>
      obtain ⟨h1, h2⟩ := initTab_clear_away s t hcur
      exact ⟨h1 ▸ hcur, h2, fun hs => h1 ▸ hs⟩
  | typeIn v =>
      rw [step]
      split
      · rw [typeInStep_eq]
        exact ⟨hcur, rfl, fun hs => hs⟩
      · exact ⟨hcur, rfl, fun hs => hs⟩
  | descIn v =>
      rw [step, descInStep_eq]
      exact ⟨hcur, rfl, fun hs => hs⟩
  | clearDesc => exact ⟨hcur, rfl, fun hs => hs⟩
  | stroke w h start moves =>
      rw [step]
      split
      · cases hdc : s.drawCurves with
        | none => rw [strokeStep_none s w h start moves hdc]
                  exact ⟨hcur, rfl, fun hs => hs⟩
        | some c => rw [strokeStep_some s w h start moves c hdc]
                    exact ⟨hcur, rfl, fun hs => hs⟩
      · exact ⟨hcur, rfl, fun hs => hs⟩
  | thickness v =>
      rw [step]
      split
      · rw [thicknessStep]
        cases hdc : s.drawCurves with
        | none => exact ⟨hcur, rfl, fun hs => hs⟩
        | some c => exact ⟨hcur, rfl, fun hs => hs⟩
      · exact ⟨hcur, rfl, fun hs => hs⟩
  | pickImage supported decodeOk res fileName =>
      rw [step]
      split
      · cases hsup : supported with
        | false =>
            rw [pickImage_fail s _ decodeOk res fileName (Or.inl rfl)]
            exact ⟨hcur, rfl, fun hs => hs⟩
        | true =>
            cases hdec : decodeOk with
            | false =>
                rw [pickImage_fail s true _ res fileName (Or.inr rfl)]
                exact ⟨hcur, rfl, fun hs => hs⟩
            | true =>
                cases ho : res.outline with
                | none =>
                    rw [pickImage_noOutline s res fileName ho]
                    exact ⟨hcur, rfl, fun hs => hs⟩
                | some o =>
                    rw [pickImage_success s res fileName o ho]
                    exact ⟨hcur, rfl, fun hs => hs⟩
      · exact ⟨hcur, rfl, fun hs => hs⟩
  | l10nResolve v => exact ⟨hcur, rfl, fun hs => hs⟩
  | setSave b => exact ⟨hcur, rfl, fun hs => hs⟩
  | errorClose => exact ⟨hcur, rfl, fun hs => hs⟩

lemma run_away (t : Tab) :
    ∀ (es : List Ev) (s : SMState), s.currentTab ≠ some t →
      (∀ e ∈ es, e ≠ Ev.switchTab t) →
      (run s es).currentTab ≠ some t ∧
      (run s es).tabsToAltText t = s.tabsToAltText t ∧
      (s.currentTab.isSome = true → (run s es).currentTab.isSome = true) := by
  intro es
  induction es with
  | nil => exact fun s hcur _ => ⟨hcur, rfl, fun hs => hs⟩
  | cons e rest ih =>
      intro s hcur hall
      have he : e ≠ Ev.switchTab t := hall e (List.mem_cons_self e rest)
      obtain ⟨h1, h2, h3⟩ := step_away s t e hcur he
      obtain ⟨g1, g2, g3⟩ := ih (step s e)  h1
        (fun e' he' => hall e' (List.mem_cons_of_mem e he'))
      exact ⟨g1, g2.trans h2, fun hs => g3 (h3 hs)⟩


lemma openDialog_fields (b : Bool) :
    (openDialog b).currentTab = some Tab.type ∧
    (∀ u, (openDialog b).tabsToAltText u = "") ∧
    (openDialog b).descriptionValue = "" ∧
    (openDialog b).saveChecked = !b ∧
    (openDialog b).fullStorageFlagged = b ∧
    (openDialog b).hasDescriptionChanged = false ∧
    (openDialog b).typeInputValue = "" ∧
    (openDialog b).drawCurves = none ∧
    (openDialog b).imagePathExists = false ∧
    (openDialog b).addDisabled = true ∧
    (openDialog b).clearDisabled = true ∧
    (openDialog b).saveContainerDisabled = true ∧
    (openDialog b).drawPathExists = false := by
  obtain ⟨h1, h2, h3, h4, h5, h6, h7, h8, h9, h10, h11, h12, h13⟩ :=
    initTab_first
      { initialState with tabsToAltText := fun _ => "",
                          fullStorageFlagged := b, saveChecked := !b }
      Tab.type rfl
  exact ⟨h1, fun u => h2 u, h3, h9, h13, h8, h4, h5, h7, h10, h11, h12, h6⟩

/-- C1: selecting the already-current tab is a no-op; selecting another tab
snapshots the outgoing tab's description into the per-tab map, makes the
selected tab current and restores its stored snapshot into the description
field; consequently, coming back to a tab after any events that do not
select it shows exactly the description present when it was last left, and
a tab never selected in the session shows the empty string. -/
theorem tab_switch_description :
    (∀ (s : SMState) (t : Tab), s.currentTab = some t →
       step s (Ev.switchTab t) = s) ∧
    (∀ (s : SMState) (t₀ t : Tab), s.currentTab = some t₀ → t ≠ t₀ →
       (step s (Ev.switchTab t)).currentTab = some t ∧
       (step s (Ev.switchTab t)).tabsToAltText t₀ = s.descriptionValue ∧
       (step s (Ev.switchTab t)).descriptionValue = s.tabsToAltText t) ∧
    (∀ (s : SMState) (t t' : Tab) (es : List Ev),
       s.currentTab = some t → t' ≠ t → (∀ e ∈ es, e ≠ Ev.switchTab t) →
       (step (run (step s (Ev.switchTab t')) es)
         (Ev.switchTab t)).descriptionValue = s.descriptionValue) ∧
    (∀ (b : Bool) (es : List Ev) (t : Tab), t ≠ Tab.type →
       (∀ e ∈ es, e ≠ Ev.switchTab t) →
       (step (run (openDialog b) es) (Ev.switchTab t)).descriptionValue = "") := by
  have hrestore : ∀ (s₁ : SMState) (t : Tab) (es : List Ev),
      s₁.currentTab ≠ some t → s₁.currentTab.isSome = true →
      (∀ e ∈ es, e ≠ Ev.switchTab t) →
      (step (run s₁ es) (Ev.switchTab t)).descriptionValue
        = (run s₁ es).tabsToAltText t ∧
      (run s₁ es).tabsToAltText t = s₁.tabsToAltText t := by
    intro s₁ t es hne hsome hall
    obtain ⟨g1, g2, g3⟩ := run_away t es s₁ hne hall
    obtain ⟨u, hu⟩ := Option.isSome_iff_exists.mp (g3 hsome)
    have hut : t ≠ u := fun habs => g1 (habs ▸ hu)
    obtain ⟨-, -, hdesc, -⟩ := initTab_switch (run s₁ es) u t hu hut
    exact ⟨hdesc, g2⟩
  refine ⟨?_, ?_, ?_, ?_⟩
  · intro s t h
    exact initTab_noop s t h
  · intro s t₀ t h hne
    obtain ⟨h1, h2, h3, -⟩ := initTab_switch s t₀ t h hne
    refine ⟨h1, ?_, h3⟩
    show (initTab s (some t)).tabsToAltText t₀ = s.descriptionValue
    rw [h2 t₀, setAlt, if_pos rfl]
  · intro s t t' es h hne hall
    obtain ⟨h1, h2, -⟩ := initTab_switch s t t' h hne
    have hcur : (step s (Ev.switchTab t')).currentTab ≠ some t := by
      rw [show step s (Ev.switchTab t') = initTab s (some t') from rfl, h1]
      simp [hne]
    have hsome : (step s (Ev.switchTab t')).currentTab.isSome = true := by
      rw [show step s (Ev.switchTab t') = initTab s (some t') from rfl, h1]
      rfl
    obtain ⟨hd, ha⟩ := hrestore (step s (Ev.switchTab t')) t es hcur hsome hall
    rw [hd, ha,
      show step s (Ev.switchTab t') = initTab s (some t') from rfl, h2 t,
      setAlt, if_pos rfl]
  · intro b es t ht hall
    obtain ⟨hcur0, halt0, -⟩ := openDialog_fields b
    have hne : (openDialog b).currentTab ≠ some t := by
      rw [hcur0]
      simp [Ne.symm ht]
    have hsome : (openDialog b).currentTab.isSome = true := by
      rw [hcur0]
      rfl
    obtain ⟨hd, ha⟩ := hrestore (openDialog b) t es hne hsome hall
    rw [hd, ha, halt0 t]

/-- Witness for `tab_switch_description`: type "sig" in the type tab, switch
to the draw tab, edit the description there, and switch back: the
description field shows "sig" again. -/
theorem tab_switch_description_witness :
    (step (run (step (run (openDialog false) [Ev.typeIn "sig"])
        (Ev.switchTab Tab.draw)) [Ev.descIn "other"])
      (Ev.switchTab Tab.type)).descriptionValue
      = (run (openDialog false) [Ev.typeIn "sig"]).descriptionValue ∧
    (run (openDialog false) [Ev.typeIn "sig"]).descriptionValue = "sig" := by
  refine ⟨tab_switch_description.2.2.1 (run (openDialog false) [Ev.typeIn "sig"])
    Tab.type Tab.draw [Ev.descIn "other"] (by decide) (by decide) ?_, by decide⟩
  intro e he
  simp only [List.mem_singleton] at he
  subst he
  decide

/-- C10: clearing the signature while tab `t` is active resets the shared
description field, the description-dirty flag and tab `t`'s description
snapshot, resets only tab `t`'s capture state, and leaves the capture state
and description snapshots of the other two tabs unchanged. -/
theorem clear_signature_frame (s : SMState) (t : Tab)
    (h : s.currentTab = some t) :
    (step s Ev.clearSig).descriptionValue = "" ∧
    (step s Ev.clearSig).hasDescriptionChanged = false ∧
    (step s Ev.clearSig).currentTab = some t ∧
    (step s Ev.clearSig).tabsToAltText t = "" ∧
    (∀ u, u ≠ t → (step s Ev.clearSig).tabsToAltText u = s.tabsToAltText u) ∧
    (t = Tab.type →
      (step s Ev.clearSig).typeInputValue = "" ∧
      (step s Ev.clearSig).drawCurves = s.drawCurves ∧
      (step s Ev.clearSig).drawPathCmds = s.drawPathCmds ∧
      (step s Ev.clearSig).drawPathExists = s.drawPathExists ∧
      (step s Ev.clearSig).drawThicknessValue = s.drawThicknessValue ∧
      (step s Ev.clearSig).imagePathExists = s.imagePathExists ∧
      (step s Ev.clearSig).extractedSignatureData = s.extractedSignatureData) ∧
    (t = Tab.draw →
      (step s Ev.clearSig).drawCurves = none ∧
      (step s Ev.clearSig).drawPathCmds = [] ∧
      (step s Ev.clearSig).drawPathExists = false ∧
      (step s Ev.clearSig).drawThicknessValue = 1 ∧
      (step s Ev.clearSig).typeInputValue = s.typeInputValue ∧
      (step s Ev.clearSig).imagePathExists = s.imagePathExists ∧
      (step s Ev.clearSig).extractedSignatureData = s.extractedSignatureData) ∧
    (t = Tab.image →
      (step s Ev.clearSig).imagePathExists = false ∧
      (step s Ev.clearSig).typeInputValue = s.typeInputValue ∧
      (step s Ev.clearSig).drawCurves = s.drawCurves ∧
      (step s Ev.clearSig).drawPathCmds = s.drawPathCmds ∧
      (step s Ev.clearSig).drawPathExists = s.drawPathExists ∧
      (step s Ev.clearSig).extractedSignatureData = s.extractedSignatureData) := by
  have hcond : ¬((none : Option Tab).isSome ∧ s.currentTab = none) := by
    rintro ⟨habs, -⟩
    simp at habs
  rw [show step s Ev.clearSig = initTab s none from rfl, initTab, if_neg hcond]
  cases t <;>
    simp [h, resetCommon, resetTab, initTypeTab, initDrawTab, initImageTab,
      disableButtons, setAlt] <;>
    intro u hu <;> simp [hu]

/-- Witness for `clear_signature_frame`: clearing the type tab after typing
"sig" empties the description and the typed text but leaves the draw tab's
snapshot untouched. -/
theorem clear_signature_frame_witness :
    (step (run (openDialog false) [Ev.typeIn "sig"]) Ev.clearSig).descriptionValue = "" ∧
    (step (run (openDialog false) [Ev.typeIn "sig"]) Ev.clearSig).typeInputValue = "" ∧
    (step (run (openDialog false) [Ev.typeIn "sig"]) Ev.clearSig).tabsToAltText Tab.draw
      = (run (openDialog false) [Ev.typeIn "sig"]).tabsToAltText Tab.draw := by
  have h := clear_signature_frame (run (openDialog false) [Ev.typeIn "sig"])
    Tab.type (by decide)
  exact ⟨h.1, (h.2.2.2.2.2.1 rfl).1, h.2.2.2.2.1 Tab.draw (by decide)⟩

lemma clear_fields (s : SMState) (t : Tab) (h : s.currentTab = some t) :
    (initTab s none).currentTab = some t ∧
    (initTab s none).addDisabled = true ∧
    (initTab s none).clearDisabled = true ∧
    (initTab s none).saveContainerDisabled = true ∧
    (t = Tab.type → (initTab s none).typeInputValue = ""
      ∧ (initTab s none).drawCurves = s.drawCurves
      ∧ (initTab s none).drawPathExists = s.drawPathExists
      ∧ (initTab s none).imagePathExists = s.imagePathExists) ∧
    (t = Tab.draw → (initTab s none).drawCurves = none
      ∧ (initTab s none).drawPathExists = false
      ∧ (initTab s none).typeInputValue = s.typeInputValue
      ∧ (initTab s none).imagePathExists = s.imagePathExists) ∧
    (t = Tab.image → (initTab s none).imagePathExists = false
      ∧ (initTab s none).drawCurves = s.drawCurves
      ∧ (initTab s none).drawPathExists = s.drawPathExists
      ∧ (initTab s none).typeInputValue = s.typeInputValue) := by
  have hcond : ¬((none : Option Tab).isSome ∧ s.currentTab = none) := by
    rintro ⟨habs, -⟩
    simp at habs
  rw [initTab, if_neg hcond]
  cases t <;>
    simp [h, resetCommon, resetTab, initTypeTab, initDrawTab, initImageTab,
      disableButtons]

lemma l10nStep_eq (s : SMState) (v : String) :
    l10nStep s v =
      { s with descriptionValue :=
                 if s.descriptionValue = "" then v else s.descriptionValue,
               clearDescriptionDisabled :=
                 (if s.descriptionValue = "" then v
                  else s.descriptionValue) == "" } := rfl

lemma thicknessStep_none_eq (s : SMState) (v : Int)
    (hdc : s.drawCurves = none) :
    thicknessStep s v = { s with drawThicknessValue := v } := by
  rw [thicknessStep]
  simp [hdc]

lemma thicknessStep_some_eq (s : SMState) (v : Int) (c : DrawCurvesData)
    (hdc : s.drawCurves = some c) :
    thicknessStep s v =
      { s with drawThicknessValue := v,
               drawCurves := some { c with thickness := v } } := by
  rw [thicknessStep]
  simp [hdc]

lemma holdsData_congr (s' s : SMState) (hct : s'.currentTab = s.currentTab)
    (hty : s'.typeInputValue = s.typeInputValue)
    (hdc : s'.drawCurves = s.drawCurves)
    (him : s'.imagePathExists = s.imagePathExists) :
    holdsData s' = holdsData s := by
  rw [holdsData, holdsData, hct, hty, hdc, him]

lemma holdsData_type (s : SMState) (h : s.currentTab = some Tab.type) :
    holdsData s = (s.typeInputValue != "") := by
  rw [holdsData, h]

lemma holdsData_draw (s : SMState) (h : s.currentTab = some Tab.draw) :
    holdsData s = s.drawCurves.isSome := by
  rw [holdsData, h]

lemma holdsData_image (s : SMState) (h : s.currentTab = some Tab.image) :
    holdsData s = s.imagePathExists := by
  rw [holdsData, h]

lemma inv_of_frame (s' s : SMState) (h : Inv s)
    (e1 : s'.currentTab = s.currentTab)
    (e2 : s'.typeInputValue = s.typeInputValue)
    (e3 : s'.drawCurves = s.drawCurves)
    (e4 : s'.imagePathExists = s.imagePathExists)
    (e5 : s'.addDisabled = s.addDisabled)
    (e6 : s'.clearDisabled = s.clearDisabled)
    (e7 : s'.saveContainerDisabled = s.saveContainerDisabled)
    (e8 : s'.drawPathExists = s.drawPathExists) : Inv s' := by
  obtain ⟨h1, h2, h3, h4, h5, h6⟩ := h
  refine ⟨?_, ?_, ?_, ?_, ?_, ?_⟩
  · rw [e5, holdsData_congr s' s e1 e2 e3 e4]
    exact h1
  · rw [e6, e5, h2]
  · rw [e7, e5, h3]
  · rw [e8, e3, h4]
  · rw [e1]
    exact h5
  · intro c hcc
    rw [e3] at hcc
    exact h6 c hcc

lemma inv_open (b : Bool) : Inv (openDialog b) := by
  obtain ⟨h1, -, -, -, -, -, h7, h8, h9, h10, h11, h12, h13⟩ :=
    openDialog_fields b
  refine ⟨?_, ?_, ?_, ?_, ?_, ?_⟩
  · rw [h10, holdsData_type _ h1, h7]
    rfl
  · rw [h11, h10]
  · rw [h12, h10]
  · rw [h13, h8]
    rfl
  · rw [h1]
    rfl
  · intro c hc
    rw [h8] at hc
    exact Option.noConfusion hc

lemma inv_step (s : SMState) (e : Ev) (h : Inv s) : Inv (step s e) := by
  obtain ⟨t₀, ht₀⟩ := Option.isSome_iff_exists.mp h.2.2.2.2.1
  obtain ⟨h1, h2, h3, h4, h5, h6⟩ := h
  cases e with
  | switchTab t =>
      rw [step]
      by_cases hc : s.currentTab = some t
      · rw [initTab_noop s t hc]
        exact ⟨h1, h2, h3, h4, h5, h6⟩
      · have hne : t ≠ t₀ := fun habs => hc (habs ▸ ht₀)
        obtain ⟨g1, -, -, g4, g5, g6, g7, -, -, g10, g11, g12⟩ :=
          initTab_switch s t₀ t ht₀ hne
        refine ⟨?_, ?_, ?_, ?_, ?_, ?_⟩
        · rw [g10]
          cases t with
          | type => rw [holdsData_type _ g1, g4, tabData]
          | draw => rw [holdsData_draw _ g1, g5, tabData, h4]
          | image => rw [holdsData_image _ g1, g7, tabData]
        · rw [g11, g10]
        · rw [g12, g10]
        · rw [g6, g5]
          exact h4
        · rw [g1]
          rfl
        · intro c hcc
          rw [g5] at hcc
          exact h6 c hcc
  | clearSig =>
      rw [step]
      obtain ⟨g1, g2, g3, g4, gtype, gdraw, gimage⟩ := clear_fields s t₀ ht₀
      refine ⟨?_, ?_, ?_, ?_, ?_, ?_⟩
      · rw [g2]
        cases t₀ with
        | type =>
            obtain ⟨a1, -⟩ := gtype rfl
            rw [holdsData_type _ g1, a1]
            rfl
        | draw =>
            obtain ⟨a1, -⟩ := gdraw rfl
            rw [holdsData_draw _ g1, a1]
            rfl
        | image =>
            obtain ⟨a1, -⟩ := gimage rfl
            rw [holdsData_image _ g1, a1]
            rfl
      · rw [g3, g2]
      · rw [g4, g2]
      · cases t₀ with
        | type =>
            obtain ⟨-, a2, a3, -⟩ := gtype rfl
            rw [a3, a2]
            exact h4
        | draw =>
            obtain ⟨a1, a2, -⟩ := gdraw rfl
            rw [a2, a1]
            rfl
        | image =>
            obtain ⟨-, a2, a3, -⟩ := gimage rfl
            rw [a3, a2]
            exact h4
      · rw [g1]
        rfl
      · intro c hcc
        cases t₀ with
        | type =>
            obtain ⟨-, a2, -⟩ := gtype rfl
            rw [a2] at hcc
            exact h6 c hcc
        | draw =>
            obtain ⟨a1, -⟩ := gdraw rfl
            rw [a1] at hcc
            exact Option.noConfusion hcc
        | image =>
            obtain ⟨-, a2, -⟩ := gimage rfl
            rw [a2] at hcc
            exact h6 c hcc
  | typeIn v =>
      rw [step]
      split
      · next htab =>
          have e1 := typeInStep_eq s v
          refine ⟨?_, ?_, ?_, ?_, ?_, ?_⟩
          · rw [holdsData_type (typeInStep s v) (by rw [e1]; exact htab), e1]
          · rw [e1]
          · rw [e1]
          · rw [e1]
            exact h4
          · rw [e1]
            exact h5
          · rw [e1]
            exact h6
      · exact ⟨h1, h2, h3, h4, h5, h6⟩
  | descIn v =>
      rw [step]
      have e1 := descInStep_eq s v
      exact inv_of_frame (descInStep s v) s ⟨h1, h2, h3, h4, h5, h6⟩
        (by rw [e1]) (by rw [e1]) (by rw [e1]) (by rw [e1]) (by rw [e1])
        (by rw [e1]) (by rw [e1]) (by rw [e1])
  | clearDesc =>
      exact inv_of_frame (step s Ev.clearDesc) s ⟨h1, h2, h3, h4, h5, h6⟩
        rfl rfl rfl rfl rfl rfl rfl rfl
  | stroke w hh start moves =>
      rw [step]
      split
      · next htab =>
          cases hdc : s.drawCurves with
          | none =>
              have e1 := strokeStep_none s w hh start moves hdc
              refine ⟨?_, ?_, ?_, ?_, ?_, ?_⟩
              · rw [holdsData_draw (strokeStep s w hh start moves)
                  (by rw [e1]; exact htab), e1]
                rfl
              · rw [e1]
              · rw [e1]
              · rw [e1]
                rfl
              · rw [e1]
                exact h5
              · intro c hcc
                rw [e1] at hcc
                simp only [Option.some.injEq] at hcc
                rw [← hcc]
                simp
          | some c =>
              have e1 := strokeStep_some s w hh start moves c hdc
              refine ⟨?_, ?_, ?_, ?_, ?_, ?_⟩
              · rw [holdsData_draw (strokeStep s w hh start moves)
                  (by rw [e1]; exact htab), e1, h1,
                  holdsData_draw s htab, hdc]
                rfl
              · rw [e1]
                exact h2
              · rw [e1]
                exact h3
              · rw [e1, h4, hdc]
                rfl
              · rw [e1]
                exact h5
              · intro c' hcc
                rw [e1] at hcc
                simp only [Option.some.injEq] at hcc
                rw [← hcc]
                simp
      · exact ⟨h1, h2, h3, h4, h5, h6⟩
  | thickness v =>
      rw [step]
      split
      · next htab =>
          cases hdc : s.drawCurves with
          | none =>
              have e1 := thicknessStep_none_eq s v hdc
              exact inv_of_frame (thicknessStep s v) s ⟨h1, h2, h3, h4, h5, h6⟩
                (by rw [e1]) (by rw [e1]) (by rw [e1, hdc]) (by rw [e1])
                (by rw [e1]) (by rw [e1]) (by rw [e1]) (by rw [e1])
          | some c =>
              have e1 := thicknessStep_some_eq s v c hdc
              refine ⟨?_, ?_, ?_, ?_, ?_, ?_⟩
              · rw [holdsData_draw (thicknessStep s v)
                  (by rw [e1]; exact htab), e1, h1,
                  holdsData_draw s htab, hdc]
                rfl
              · rw [e1]
                exact h2
              · rw [e1]
                exact h3
              · rw [e1, h4, hdc]
                rfl
              · rw [e1]
                exact h5
              · intro c' hcc
                rw [e1] at hcc
                simp only [Option.some.injEq] at hcc
                rw [← hcc]
                exact h6 c hdc
      · exact ⟨h1, h2, h3, h4, h5, h6⟩
  | pickImage supported decodeOk res fileName =>
      rw [step]
      split
      · next htab =>
          cases hsup : supported with
          | false =>
              have e1 := pickImage_fail s false decodeOk res fileName
                (Or.inl rfl)
              exact inv_of_frame
                (pickImageStep s false decodeOk res fileName) s
                ⟨h1, h2, h3, h4, h5, h6⟩
                (by rw [e1]) (by rw [e1]) (by rw [e1]) (by rw [e1])
                (by rw [e1]) (by rw [e1]) (by rw [e1]) (by rw [e1])
          | true =>
              cases hdec : decodeOk with
              | false =>
                  have e1 := pickImage_fail s true false res fileName
                    (Or.inr rfl)
                  exact inv_of_frame
                    (pickImageStep s true false res fileName) s
                    ⟨h1, h2, h3, h4, h5, h6⟩
                    (by rw [e1]) (by rw [e1]) (by rw [e1]) (by rw [e1])
                    (by rw [e1]) (by rw [e1]) (by rw [e1]) (by rw [e1])
              | true =>
                  cases ho : res.outline with
                  | none =>
                      have e1 := pickImage_noOutline s res fileName ho
                      exact inv_of_frame
                        (pickImageStep s true true res fileName) s
                        ⟨h1, h2, h3, h4, h5, h6⟩
                        (by rw [e1]) (by rw [e1]) (by rw [e1]) (by rw [e1])
                        (by rw [e1]) (by rw [e1]) (by rw [e1]) (by rw [e1])
                  | some o =>
                      have e1 := pickImage_success s res fileName o ho
                      refine ⟨?_, ?_, ?_, ?_, ?_, ?_⟩
                      · rw [holdsData_image
                          (pickImageStep s true true res fileName)
                          (by rw [e1]; exact htab), e1]
                        rfl
                      · rw [e1]
                      · rw [e1]
                      · rw [e1]
                        exact h4
                      · rw [e1]
                        exact h5
                      · intro c hcc
                        rw [e1] at hcc
                        exact h6 c hcc
      · exact ⟨h1, h2, h3, h4, h5, h6⟩
  | l10nResolve v =>
      rw [step]
      have e1 := l10nStep_eq s v
      exact inv_of_frame (l10nStep s v) s ⟨h1, h2, h3, h4, h5, h6⟩
        (by rw [e1]) (by rw [e1]) (by rw [e1]) (by rw [e1]) (by rw [e1])
        (by rw [e1]) (by rw [e1]) (by rw [e1])
  | setSave b =>
      exact inv_of_frame (step s (Ev.setSave b)) s ⟨h1, h2, h3, h4, h5, h6⟩
        rfl rfl rfl rfl rfl rfl rfl rfl
  | errorClose =>
      exact inv_of_frame (step s Ev.errorClose) s ⟨h1, h2, h3, h4, h5, h6⟩
        rfl rfl rfl rfl rfl rfl rfl rfl

lemma inv_run (b : Bool) (es : List Ev) : Inv (run (openDialog b) es) := by
  have hstep : ∀ (l : List Ev) (s : SMState), Inv s → Inv (run s l) := by
    intro l
    induction l with
    | nil => exact fun s hs => hs
    | cons e rest ih => exact fun s hs => ih (step s e) (inv_step s e hs)
  exact hstep es (openDialog b) (inv_open b)

/-- C3: at every state reachable in an open dialog session the commit (add),
clear and save controls are enabled exactly when the active tab holds
capturable data (non-empty typed text, at least one recorded stroke, or a
displayed traced image outline), and clearing the signature always leaves
them disabled. -/
theorem commit_controls_enabled_iff (b : Bool) (es : List Ev) :
    (((run (openDialog b) es).addDisabled = false ∧
      (run (openDialog b) es).clearDisabled = false ∧
      (run (openDialog b) es).saveContainerDisabled = false) ↔
      (match (run (openDialog b) es).currentTab with
       | some Tab.type => (run (openDialog b) es).typeInputValue ≠ ""
       | some Tab.draw =>
           ∃ c, (run (openDialog b) es).drawCurves = some c ∧ c.curves ≠ []
       | some Tab.image => (run (openDialog b) es).imagePathExists = true
       | none => False)) ∧
    (step (run (openDialog b) es) Ev.clearSig).addDisabled = true ∧
    (step (run (openDialog b) es) Ev.clearSig).clearDisabled = true ∧
    (step (run (openDialog b) es) Ev.clearSig).saveContainerDisabled = true := by
  obtain ⟨h1, h2, h3, h4, h5, h6⟩ := inv_run b es
  obtain ⟨t, ht⟩ := Option.isSome_iff_exists.mp h5
  obtain ⟨-, g2, g3, g4, -⟩ := clear_fields (run (openDialog b) es) t ht
  refine ⟨?_, g2, g3, g4⟩
  rw [ht]
  cases t with
  | type =>
      rw [h2, h3, h1, holdsData_type _ ht]
      simp [bne_iff_ne]
  | draw =>
      rw [h2, h3, h1, holdsData_draw _ ht]
      constructor
      · rintro ⟨ha, -⟩
        rcases hdc : (run (openDialog b) es).drawCurves with _ | c
        · rw [hdc] at ha
          simp at ha
        · exact ⟨c, rfl, h6 c hdc⟩
      · rintro ⟨c, hc, -⟩
        rw [hc]
        simp
  | image =>
      rw [h2, h3, h1, holdsData_image _ ht]
      simp

lemma typeIn_step_type (s : SMState) (v : String)
    (htab : s.currentTab = some Tab.type) :
    step s (Ev.typeIn v) = typeInStep s v := by
  rw [step, if_pos htab]

lemma typeIn_run_mirror : ∀ (vs : List String) (s : SMState),
    s.currentTab = some Tab.type → s.hasDescriptionChanged = false →
    (run s (vs.map Ev.typeIn)).currentTab = some Tab.type ∧
    (run s (vs.map Ev.typeIn)).hasDescriptionChanged = false ∧
    (vs ≠ [] → (run s (vs.map Ev.typeIn)).descriptionValue
       = (run s (vs.map Ev.typeIn)).typeInputValue) := by
  intro vs
  induction vs with
  | nil => exact fun s htab hd => ⟨htab, hd, fun habs => absurd rfl habs⟩
  | cons v rest ih =>
      intro s htab hd
      have hstep : run s ((v :: rest).map Ev.typeIn)
          = run (typeInStep s v) (rest.map Ev.typeIn) := by
        rw [List.map_cons, run, List.foldl_cons, typeIn_step_type s v htab]
        rfl
      have e1 := typeInStep_eq s v
      have htab1 : (typeInStep s v).currentTab = some Tab.type := by
        rw [e1]
        exact htab
      have hd1 : (typeInStep s v).hasDescriptionChanged = false := by
        rw [e1]
        exact hd
      obtain ⟨ih1, ih2, ih3⟩ := ih (typeInStep s v) htab1 hd1
      rw [hstep]
      refine ⟨ih1, ih2, fun _ => ?_⟩
      cases rest with
      | nil =>
          show (typeInStep s v).descriptionValue
            = (typeInStep s v).typeInputValue
          rw [e1]
          simp [hd]
      | cons w ws => exact ih3 (List.cons_ne_nil w ws)

lemma typeIn_run_dirty : ∀ (vs : List String) (s : SMState),
    s.hasDescriptionChanged = true →
    (run s (vs.map Ev.typeIn)).descriptionValue = s.descriptionValue ∧
    (run s (vs.map Ev.typeIn)).hasDescriptionChanged = true := by
  intro vs
  induction vs with
  | nil => exact fun s hd => ⟨rfl, hd⟩
  | cons v rest ih =>
      intro s hd
      have hstep : run s ((v :: rest).map Ev.typeIn)
          = run (step s (Ev.typeIn v)) (rest.map Ev.typeIn) := rfl
      rw [hstep]
      have hfix : (step s (Ev.typeIn v)).descriptionValue = s.descriptionValue
          ∧ (step s (Ev.typeIn v)).hasDescriptionChanged = true := by
        rw [step]
        split
        · rw [typeInStep_eq]
          simp [hd]
        · exact ⟨rfl, hd⟩
      obtain ⟨ih1, ih2⟩ := ih (step s (Ev.typeIn v)) hfix.2
      exact ⟨ih1.trans hfix.1, ih2⟩

/-- C4: in the type tab, while the description has never diverged from the
typed text (`#hasDescriptionChanged` false) every keystroke mirrors the
typed text into the description; editing the description sets the flag to
whether typed text and description differ; and once the flag is set no
sequence of further keystrokes ever changes the description. -/
theorem type_tab_mirroring :
    (∀ (s : SMState) (v : String), s.currentTab = some Tab.type →
       s.hasDescriptionChanged = false →
       (step s (Ev.typeIn v)).descriptionValue
         = (step s (Ev.typeIn v)).typeInputValue ∧
       (step s (Ev.typeIn v)).descriptionValue = v ∧
       (step s (Ev.typeIn v)).hasDescriptionChanged = false) ∧
    (∀ (s : SMState) (vs : List String), s.currentTab = some Tab.type →
       s.hasDescriptionChanged = false → vs ≠ [] →
       (run s (vs.map Ev.typeIn)).descriptionValue
         = (run s (vs.map Ev.typeIn)).typeInputValue) ∧
    (∀ (s : SMState) (v : String), s.currentTab = some Tab.type →
       (step s (Ev.descIn v)).hasDescriptionChanged
         = (s.typeInputValue != v)) ∧
    (∀ (s : SMState) (vs : List String), s.hasDescriptionChanged = true →
       (run s (vs.map Ev.typeIn)).descriptionValue = s.descriptionValue ∧
       (run s (vs.map Ev.typeIn)).hasDescriptionChanged = true) := by
  refine ⟨?_, ?_, ?_, ?_⟩
  · intro s v htab hd
    rw [typeIn_step_type s v htab, typeInStep_eq]
    simp [hd]
  · intro s vs htab hd hne
    exact (typeIn_run_mirror vs s htab hd).2.2 hne
  · intro s v htab
    rw [show step s (Ev.descIn v) = descInStep s v from rfl, descInStep_eq]
    simp [htab]
  · intro s vs hd
    exact typeIn_run_dirty vs s hd

/-- Witness for `type_tab_mirroring`: typing "PD" then "PDF" mirrors into
the description; after editing the description to "my sig" the flag is set
and further typing leaves the description at "my sig". -/
theorem type_tab_mirroring_witness :
    (run (openDialog false) (["PD", "PDF"].map Ev.typeIn)).descriptionValue
      = (run (openDialog false) (["PD", "PDF"].map Ev.typeIn)).typeInputValue ∧
    (run (run (openDialog false) [Ev.typeIn "PDF", Ev.descIn "my sig"])
       (["PDF.", "PDF.js"].map Ev.typeIn)).descriptionValue
      = (run (openDialog false) [Ev.typeIn "PDF", Ev.descIn "my sig"]).descriptionValue := by
  constructor
  · exact type_tab_mirroring.2.1 (openDialog false) ["PD", "PDF"] (by decide)
      (by decide) (by decide)
  · exact (type_tab_mirroring.2.2.2
      (run (openDialog false) [Ev.typeIn "PDF", Ev.descIn "my sig"])
      ["PDF.", "PDF.js"] (by decide)).1

/-- C5: pressing the clear-description control empties the description and
disables the control, changing nothing else (in particular not the dirty
flag); afterwards, with the flag set, typing still never overwrites the
description, and editing the description clears the flag exactly when the
new text equals the typed text. -/
theorem clear_description_effect :
    (∀ s : SMState, step s Ev.clearDesc =
       { s with descriptionValue := "", clearDescriptionDisabled := true }) ∧
    (∀ (s : SMState) (w : String), s.currentTab = some Tab.type →
       s.hasDescriptionChanged = true →
       (((step (step s Ev.clearDesc) (Ev.descIn w)).hasDescriptionChanged
           = false) ↔ w = s.typeInputValue) ∧
       (∀ v : String,
          (step (step s Ev.clearDesc) (Ev.typeIn v)).descriptionValue = "" ∧
          (step (step s Ev.clearDesc) (Ev.typeIn v)).hasDescriptionChanged
            = true)) := by
  refine ⟨fun s => rfl, ?_⟩
  intro s w htab hd
  constructor
  · rw [show step (step s Ev.clearDesc) (Ev.descIn w)
        = descInStep (step s Ev.clearDesc) w from rfl, descInStep_eq]
    have : (step s Ev.clearDesc).currentTab = some Tab.type := htab
    simp only [this, if_pos]
    show ((s.typeInputValue != w) = false) ↔ w = s.typeInputValue
    rw [bne_eq_false_iff_eq]
    exact eq_comm
  · intro v
    rw [typeIn_step_type (step s Ev.clearDesc) v htab, typeInStep_eq]
    have hdd : (step s Ev.clearDesc).hasDescriptionChanged = true := hd
    simp only [hdd]
    exact ⟨rfl, trivial⟩

/-- Witness for `clear_description_effect`: with typed text "PDF" and dirty
description "note", clearing then typing "PDFx" leaves the description
empty, and re-editing it to "PDF" resets the flag. -/
theorem clear_description_effect_witness :
    ((step (step (run (openDialog false) [Ev.typeIn "PDF", Ev.descIn "note"])
        Ev.clearDesc) (Ev.typeIn "PDFx")).descriptionValue = "" ∧
     (step (step (run (openDialog false) [Ev.typeIn "PDF", Ev.descIn "note"])
        Ev.clearDesc) (Ev.typeIn "PDFx")).hasDescriptionChanged = true) ∧
    ((step (step (run (openDialog false) [Ev.typeIn "PDF", Ev.descIn "note"])
        Ev.clearDesc) (Ev.descIn "PDF")).hasDescriptionChanged = false) := by
  have h := clear_description_effect.2
    (run (openDialog false) [Ev.typeIn "PDF", Ev.descIn "note"])
    "PDF" (by decide) (by decide)
  exact ⟨h.2 "PDFx", h.1.mpr (by decide)⟩

/-- C7 (amended): when an accepted image file decodes successfully but
tracing yields no outline, the extraction result (with its empty outline)
is stored into `#extractedSignatureData` and the waiting indicator is
reset, while every other part of the dialog state — displayed image path,
commit controls, description, error bar — is left unchanged. -/
theorem image_no_outline_effect (s : SMState) (res : ExtractedData)
    (fileName : String) (htab : s.currentTab = some Tab.image)
    (ho : res.outline = none) :
    step s (Ev.pickImage true true res fileName)
      = { s with extractedSignatureData := some res, waiting := false } := by
  rw [step, if_pos htab, pickImage_noOutline s res fileName ho]

/-- Witness for `image_no_outline_effect` on the freshly opened image tab. -/
theorem image_no_outline_effect_witness :
    step imageTabState (Ev.pickImage true true ⟨none⟩ "x.png")
      = { imageTabState with extractedSignatureData := some ⟨none⟩,
                             waiting := false } :=
  image_no_outline_effect imageTabState ⟨none⟩ "x.png" (by decide) rfl

/-- C7 counterexample: after a successful extraction of `A.png`, extracting
`B.png` whose tracing yields no outline leaves the outline-less result
retained in `#extractedSignatureData` and the commit control still enabled:
the capture is not left empty and commit is not disabled (no banner is
shown and waiting is reset, as the claim says). -/
theorem image_no_outline_counterexample :
    imageOverwriteState.extractedSignatureData = some ⟨none⟩ ∧
    imageOverwriteState.addDisabled = false ∧
    imageOverwriteState.imagePathExists = true ∧
    imageOverwriteState.errorBarHidden = true ∧
    imageOverwriteState.waiting = false := by
  decide

/-- C6: with the save checkbox checked and a falsy `create` result the
commit trace is exactly create, warn log, `addSignature` with no stored id,
close — no toolbar entry and nothing surfaced to the user; and every commit
makes exactly one `addSignature` call and closes the dialog last. -/
theorem commit_persistence_failure :
    (∀ (s : SMState) (processOk : Bool), s.saveChecked = true →
       addCommit s none processOk true
         = [CallEv.createCall s.descriptionValue, CallEv.warnLog,
            CallEv.addSignature (commitPayload s) s.descriptionValue none,
            CallEv.closeDialog]) ∧
    (∀ (s : SMState) (r : Option String) (processOk : Bool),
       (addCommit s r processOk true).countP CallEv.isAddSignature = 1 ∧
       (addCommit s r processOk true).getLast? = some CallEv.closeDialog) := by
  constructor
  · intro s processOk hsave
    rw [addCommit.eq_def]
    simp [hsave]
  · intro s r processOk
    rw [addCommit.eq_def]
    cases hs : s.saveChecked with
    | false =>
        simp [List.countP_cons, CallEv.isAddSignature]
    | true =>
        cases r with
        | none => simp [List.countP_cons, CallEv.isAddSignature]
        | some u =>
            cases processOk <;>
              simp [List.countP_cons, CallEv.isAddSignature]

/-- Witness for `commit_persistence_failure`: committing the typed text
"sig" with save checked and a failing store yields exactly the
create/warn/addSignature/close trace. -/
theorem commit_persistence_failure_witness :
    addCommit (step (openDialog false) (Ev.typeIn "sig")) none true true
      = [CallEv.createCall "sig", CallEv.warnLog,
         CallEv.addSignature (some (Payload.fromText "sig")) "sig" none,
         CallEv.closeDialog] := by
  have h := commit_persistence_failure.1
    (step (openDialog false) (Ev.typeIn "sig")) true (by decide)
  rw [h]
  decide

/-- C8: on open the store's `isFull` answer initializes the save checkbox
(unchecked exactly when full) and flags the save affordance; the user can
still check the box afterwards; and any commit with the checkbox checked
makes exactly one store `create` call — the controller never blocks saving
on fullness. -/
theorem storage_full_policy :
    (∀ b : Bool, (openDialog b).saveChecked = !b ∧
       (openDialog b).fullStorageFlagged = b) ∧
    (step (openDialog true) (Ev.setSave true)).saveChecked = true ∧
    (∀ (s : SMState) (r : Option String) (processOk : Bool),
       s.saveChecked = true →
       (addCommit s r processOk true).countP CallEv.isCreate = 1) := by
  refine ⟨?_, rfl, ?_⟩
  · intro b
    obtain ⟨-, -, -, h4, h5, -⟩ := openDialog_fields b
    exact ⟨h4, h5⟩
  · intro s r processOk hsave
    rw [addCommit.eq_def]
    cases r with
    | none => simp [hsave, List.countP_cons, CallEv.isCreate]
    | some u =>
        cases processOk <;> simp [hsave, List.countP_cons, CallEv.isCreate]

/-- Witness for `storage_full_policy`: with storage full, force-checking the
save checkbox and committing still makes the create call. -/
theorem storage_full_policy_witness :
    (addCommit (step (openDialog true) (Ev.setSave true)) (some "id1") true
      true).countP CallEv.isCreate = 1 :=
  storage_full_policy.2.2 (step (openDialog true) (Ev.setSave true))
    (some "id1") true (by decide)

lemma edRun_fixed (d : String) (es : List EDEv) :
    (edRun (edOpen d) es).previousDescription = d ∧
    (edRun (edOpen d) es).editorDescription = d ∧
    (edRun (edOpen d) es).dialogActive = true ∧
    (edRun (edOpen d) es).previewAttached = true := by
  have hgen : ∀ (l : List EDEv) (s : EDState),
      (edRun s l).previousDescription = s.previousDescription ∧
      (edRun s l).editorDescription = s.editorDescription ∧
      (edRun s l).dialogActive = s.dialogActive ∧
      (edRun s l).previewAttached = s.previewAttached := by
    intro l
    induction l with
    | nil => exact fun s => ⟨rfl, rfl, rfl, rfl⟩
    | cons e rest ih =>
        intro s
        obtain ⟨i1, i2, i3, i4⟩ := ih (edStep s e)
        cases e with
        | input v => exact ⟨i1, i2, i3, i4⟩
        | clearClick => exact ⟨i1, i2, i3, i4⟩
  exact hgen es (edOpen d)

/-- C9: in the description editor, after any sequence of edits and clears,
`update()` only closes the dialog (and detaches the preview) when the text
equals the snapshot taken at `open`, leaving the target editor's
description untouched; otherwise it writes the new text onto the target
editor and closes. -/
theorem edit_description_update (d : String) (es : List EDEv) :
    ((edRun (edOpen d) es).descriptionValue = d →
       edUpdate (edRun (edOpen d) es)
         = { edRun (edOpen d) es with
             dialogActive := false, previewAttached := false }) ∧
    ((edRun (edOpen d) es).descriptionValue ≠ d →
       edUpdate (edRun (edOpen d) es)
         = { edRun (edOpen d) es with
             editorDescription := (edRun (edOpen d) es).descriptionValue,
             dialogActive := false, previewAttached := false }) ∧
    (edRun (edOpen d) es).editorDescription = d ∧
    (edRun (edOpen d) es).previousDescription = d := by
  obtain ⟨hprev, hed, hact, hpre⟩ := edRun_fixed d es
  refine ⟨?_, ?_, hed, hprev⟩
  · intro heq
    rw [edUpdate, if_pos (by rw [hprev, heq]), edFinish, if_pos hact]
  · intro hne
    rw [edUpdate,
      if_neg (fun habs => hne (by rw [← habs, hprev])),
      edFinish, if_pos hact]

/-- Witness for `edit_description_update`: opening on "Hello World",
clearing and typing a new text makes update write it to the editor; with no
edits update only closes. -/
theorem edit_description_update_witness :
    edUpdate (edRun (edOpen "Hello World")
        [EDEv.clearClick, EDEv.input "Hello PDF.js World"])
      = { edRun (edOpen "Hello World")
            [EDEv.clearClick, EDEv.input "Hello PDF.js World"] with
            editorDescription := "Hello PDF.js World",
            dialogActive := false, previewAttached := false } ∧
    edUpdate (edRun (edOpen "Hello World") ([] : List EDEv))
      = { edRun (edOpen "Hello World") ([] : List EDEv) with
          dialogActive := false, previewAttached := false } := by
  constructor
  · have h := (edit_description_update "Hello World"
      [EDEv.clearClick, EDEv.input "Hello PDF.js World"]).2.1 (by decide)
    rw [h]
    decide
  · exact (edit_description_update "Hello World" ([] : List EDEv)).1
      (by decide)

end SignatureModel
